import Mathlib

/-!
Formal verification of the `conquer-pointer` tagged-pointer library.

This file is a shallow embedding of `MarkedPtr<T, N>` from `src/imp/ptr.rs`.
Raw pointers (`*mut T`, `*const T`) are modelled as natural numbers below
`2 ^ WORD_BITS` (the numeric address on a 64-bit target).  The pointee type
`T` enters the semantics only through its alignment, which in Rust is always
a power of two; it is represented here by its exponent `a`, so
`align_of::<T>() = 2 ^ a`.  A failed assertion (Rust panic / process abort)
is modelled as `Option.none`; `some` is normal return.  Wrapping `usize`
arithmetic is modelled by explicit reduction modulo `2 ^ WORD_BITS`.
-/

namespace ConquerPointer

/-- The bit width of `usize` (64-bit target). -/
def WORD_BITS : Nat := 64

/-- Modelled from the spec: the crate-level kernel function `mark_mask`
(declared in the crate root, which is outside `src/`):
`tag_mask(bits) = (1 << bits) - 1`, the mask of the low tag bits. -/
def mark_mask (bits : Nat) : Nat := (1 <<< bits) - 1

/-- Bitwise NOT on a `usize` value (`!x` in Rust), i.e. complement within
`WORD_BITS` bits. -/
def usize_not (x : Nat) : Nat := x ^^^ (2 ^ WORD_BITS - 1)

/-- Modelled from the spec: the crate-level kernel function
`assert_alignment::<T, N>` (declared in the crate root, outside `src/`):
the assertion passes iff `align_of::<T>() = 2 ^ a` is at least `2 ^ bits`;
otherwise the program aborts.  `true` means the assertion passes. -/
def assert_alignment (a bits : Nat) : Bool := decide (2 ^ bits ≤ 2 ^ a)

/-- Modelled from the spec: the crate-level kernel function `compose`
(outside `src/`): clears the low `bits` bits of `ptr`, keeps only the low
`bits` bits of `tag` (silent truncation) and returns the bitwise OR. -/
def compose (ptr tag bits : Nat) : Nat :=
  (ptr &&& usize_not (mark_mask bits)) ||| (tag &&& mark_mask bits)

/-- Modelled from the spec: the crate-level kernel function `decompose_ptr`
(outside `src/`): `word & !tag_mask(bits)`. -/
def decompose_ptr (marked bits : Nat) : Nat := marked &&& usize_not (mark_mask bits)

/-- Modelled from the spec: the crate-level kernel function `decompose_tag`
(outside `src/`): `word & tag_mask(bits)`. -/
def decompose_tag (marked bits : Nat) : Nat := marked &&& mark_mask bits

/-- Modelled from the spec: the crate-level kernel function `decompose`
(outside `src/`): the pair of the stripped pointer and the tag. -/
def decompose (marked bits : Nat) : Nat × Nat :=
  (decompose_ptr marked bits, decompose_tag marked bits)

/-- `MarkedPtr<T, N>`: a transparent wrapper around one pointer-sized word
(`inner: *mut T` in the source). -/
structure MarkedPtr where
  inner : Nat
deriving DecidableEq, Repr

/-- `MarkedPtr::TAG_MASK = crate::mark_mask::<T>(N)`. -/
def MarkedPtr.TAG_MASK (N : Nat) : Nat := mark_mask N

/-- `MarkedPtr::POINTER_MASK = !TAG_MASK`. -/
def MarkedPtr.POINTER_MASK (N : Nat) : Nat := usize_not (MarkedPtr.TAG_MASK N)

/-- `MarkedPtr::new(ptr)`: wraps a raw pointer verbatim. -/
def MarkedPtr.new (ptr : Nat) : MarkedPtr := ⟨ptr⟩

/-- `MarkedPtr::null()`: `Self::new(ptr::null_mut())`; the null pointer is
address `0`. -/
def MarkedPtr.null : MarkedPtr := MarkedPtr.new 0

/-- `MarkedPtr::from_usize(val)`: reinterprets an integer as a pointer,
bit-identical. -/
def MarkedPtr.from_usize (val : Nat) : MarkedPtr := ⟨val⟩

/-- `MarkedPtr::compose(ptr, tag)`: asserts the alignment of `T` (exponent
`a`) supports `N` tag bits, then packs via the kernel `compose`.  `none`
models the panic of the failed assertion. -/
def MarkedPtr.compose (a N ptr tag : Nat) : Option MarkedPtr :=
  if assert_alignment a N then some (MarkedPtr.new (ConquerPointer.compose ptr tag N))
  else none

/-- `MarkedPtr::into_ptr(self)`: the inner pointer as is, tag not stripped. -/
def MarkedPtr.into_ptr (p : MarkedPtr) : Nat := p.inner

/-- `MarkedPtr::cast::<U>(self)`: same bits, new pointee type; asserts the
alignment of `U` (exponent `aU`) supports `N` tag bits.  `none` models the
panic of the failed assertion. -/
def MarkedPtr.cast (aU N : Nat) (p : MarkedPtr) : Option MarkedPtr :=
  if assert_alignment aU N then some ⟨p.inner⟩ else none

/-- `MarkedPtr::into_usize(self)`: the integer representation, bit-identical. -/
def MarkedPtr.into_usize (p : MarkedPtr) : Nat := p.inner

/-- `MarkedPtr::decompose(self)`: `crate::decompose::<T>(self.inner as usize, N)`. -/
def MarkedPtr.decompose (N : Nat) (p : MarkedPtr) : Nat × Nat :=
  ConquerPointer.decompose p.inner N

/-- `MarkedPtr::decompose_ptr(self)`. -/
def MarkedPtr.decompose_ptr (N : Nat) (p : MarkedPtr) : Nat :=
  ConquerPointer.decompose_ptr p.inner N

/-- `MarkedPtr::decompose_tag(self)`. -/
def MarkedPtr.decompose_tag (N : Nat) (p : MarkedPtr) : Nat :=
  ConquerPointer.decompose_tag p.inner N

/-- `MarkedPtr::is_null(self)`: `self.decompose_ptr().is_null()`. -/
def MarkedPtr.is_null (N : Nat) (p : MarkedPtr) : Bool :=
  p.decompose_ptr N == 0

/-- `MarkedPtr::clear_tag(self)`: `Self::new(self.decompose_ptr())`.
Note: the source calls neither `compose` nor `assert_alignment` here. -/
def MarkedPtr.clear_tag (N : Nat) (p : MarkedPtr) : MarkedPtr :=
  MarkedPtr.new (p.decompose_ptr N)

/-- `MarkedPtr::split_tag(self)`: decomposes and rewraps the stripped pointer. -/
def MarkedPtr.split_tag (N : Nat) (p : MarkedPtr) : MarkedPtr × Nat :=
  (MarkedPtr.new (p.decompose N).1, (p.decompose N).2)

/-- `MarkedPtr::set_tag(self, tag)`: `Self::compose(self.decompose_ptr(), tag)`. -/
def MarkedPtr.set_tag (a N : Nat) (p : MarkedPtr) (tag : Nat) : Option MarkedPtr :=
  MarkedPtr.compose a N (p.decompose_ptr N) tag

/-- `MarkedPtr::update_tag(self, func)`: decomposes, applies `func` to the tag
and recomposes via `Self::compose`. -/
def MarkedPtr.update_tag (a N : Nat) (p : MarkedPtr) (func : Nat → Nat) : Option MarkedPtr :=
  MarkedPtr.compose a N (p.decompose N).1 (func (p.decompose N).2)

/-- `MarkedPtr::add_tag(self, value)`: `Self::from_usize(self.into_usize() + value)`,
whole-word `usize` addition (wrapping modulo `2 ^ WORD_BITS`). -/
def MarkedPtr.add_tag (p : MarkedPtr) (value : Nat) : MarkedPtr :=
  MarkedPtr.from_usize ((p.into_usize + value) % 2 ^ WORD_BITS)

/-- `MarkedPtr::sub_tag(self, value)`: `Self::from_usize(self.into_usize() - value)`,
whole-word `usize` subtraction (wrapping modulo `2 ^ WORD_BITS`). -/
def MarkedPtr.sub_tag (p : MarkedPtr) (value : Nat) : MarkedPtr :=
  MarkedPtr.from_usize
    ((p.into_usize + (2 ^ WORD_BITS - value % 2 ^ WORD_BITS)) % 2 ^ WORD_BITS)

/-- `impl PartialEq for MarkedPtr`: `self.inner.eq(&other.inner)`. -/
def MarkedPtr.beq (p q : MarkedPtr) : Bool := p.inner == q.inner

/-- `impl Ord for MarkedPtr`: `self.inner.cmp(&other.inner)`. -/
def MarkedPtr.cmp (p q : MarkedPtr) : Ordering := compare p.inner q.inner

/-- `impl Hash for MarkedPtr`: `self.inner.hash(state)`; modelled as the list
of words the implementation feeds to the hasher state. -/
def MarkedPtr.hash (p : MarkedPtr) : List Nat := [p.inner]

/-- `impl From<&T> for MarkedPtr`: `Self::from(reference as *const _)`, which
is `Self::new` on the referent's address, verbatim. -/
def MarkedPtr.from_ref (addr : Nat) : MarkedPtr := MarkedPtr.new addr

/-- `impl From<&mut T> for MarkedPtr`: `Self::new(reference)`, the referent's
address, verbatim. -/
def MarkedPtr.from_mut_ref (addr : Nat) : MarkedPtr := MarkedPtr.new addr

/-! ### Helper lemmas about the bit-encoding kernel -/

theorem mark_mask_eq (bits : Nat) : mark_mask bits = 2 ^ bits - 1 := by
  simp [mark_mask, Nat.shiftLeft_eq]

theorem land_mark_mask (x bits : Nat) : x &&& mark_mask bits = x % 2 ^ bits := by
  rw [mark_mask_eq, Nat.and_pow_two_sub_one_eq_mod]

/-- The pointer mask `!((1 << N) - 1)` keeps exactly the bits from position
`N` (inclusive) up to `WORD_BITS` (exclusive). -/
theorem testBit_usize_not_mark_mask (N : Nat) (hN : N ≤ WORD_BITS) (i : Nat) :
    (usize_not (mark_mask N)).testBit i =
      (decide (N ≤ i) && decide (i < WORD_BITS)) := by
  have h64 : (2 ^ WORD_BITS - 1).testBit i = decide (i < WORD_BITS) :=
    Nat.testBit_two_pow_sub_one WORD_BITS i
  have hm : (mark_mask N).testBit i = decide (i < N) := by
    rw [mark_mask_eq]; exact Nat.testBit_two_pow_sub_one N i
  simp only [usize_not, Nat.testBit_xor, h64, hm]
  by_cases h1 : i < N <;> by_cases h2 : i < WORD_BITS <;>
    simp [h1, h2] <;> omega

/-- Masking with the pointer mask clears the low `N` bits and keeps the rest:
for an in-range word it equals `2 ^ N * (x / 2 ^ N)`. -/
theorem land_usize_not_mark_mask (x N : Nat) (hx : x < 2 ^ WORD_BITS)
    (hN : N ≤ WORD_BITS) :
    x &&& usize_not (mark_mask N) = 2 ^ N * (x / 2 ^ N) := by
  apply Nat.eq_of_testBit_eq
  intro i
  have hdiv : (x / 2 ^ N).testBit (i - N) = x.testBit (N + (i - N)) := by
    rw [← Nat.shiftRight_eq_div_pow]
    exact Nat.testBit_shiftRight x
  rw [Nat.testBit_and, testBit_usize_not_mark_mask N hN i, Nat.testBit_mul_pow_two, hdiv]
  by_cases hiN : N ≤ i
  · by_cases hiw : i < WORD_BITS
    · have heq : N + (i - N) = i := by omega
      rw [heq]
      simp [hiN, hiw, ge_iff_le]
    · have hfalse : x.testBit (N + (i - N)) = false := by
        apply Nat.testBit_lt_two_pow
        calc x < 2 ^ WORD_BITS := hx
          _ ≤ 2 ^ (N + (i - N)) := Nat.pow_le_pow_right (by omega) (by omega)
      have hxi : x.testBit i = false := by
        apply Nat.testBit_lt_two_pow
        calc x < 2 ^ WORD_BITS := hx
          _ ≤ 2 ^ i := Nat.pow_le_pow_right (by omega) (by omega)
      simp [hiN, hiw, hfalse, hxi]
  · simp [hiN, ge_iff_le]

theorem decompose_tag_eq (x bits : Nat) :
    ConquerPointer.decompose_tag x bits = x % 2 ^ bits := by
  unfold ConquerPointer.decompose_tag
  exact land_mark_mask x bits

theorem decompose_ptr_eq (x N : Nat) (hx : x < 2 ^ WORD_BITS) (hN : N ≤ WORD_BITS) :
    ConquerPointer.decompose_ptr x N = 2 ^ N * (x / 2 ^ N) := by
  unfold ConquerPointer.decompose_ptr
  exact land_usize_not_mark_mask x N hx hN

/-- The packed word written out arithmetically: high pointer part plus
truncated tag. -/
theorem compose_eq_add (ptr tag N : Nat) (hp : ptr < 2 ^ WORD_BITS)
    (hN : N ≤ WORD_BITS) :
    ConquerPointer.compose ptr tag N = 2 ^ N * (ptr / 2 ^ N) + tag % 2 ^ N := by
  unfold ConquerPointer.compose
  rw [land_usize_not_mark_mask ptr N hp hN, land_mark_mask]
  exact (Nat.mul_add_lt_is_or (Nat.mod_lt tag (Nat.two_pow_pos N)) _).symm

theorem compose_lt (ptr tag N : Nat) (hp : ptr < 2 ^ WORD_BITS)
    (hN : N ≤ WORD_BITS) :
    ConquerPointer.compose ptr tag N < 2 ^ WORD_BITS := by
  unfold ConquerPointer.compose
  apply Nat.or_lt_two_pow
  · exact Nat.lt_of_le_of_lt Nat.and_le_left hp
  · calc tag &&& mark_mask N ≤ mark_mask N := Nat.and_le_right
      _ < 2 ^ N := by rw [mark_mask_eq]; exact Nat.sub_lt (Nat.two_pow_pos N) Nat.one_pos
      _ ≤ 2 ^ WORD_BITS := Nat.pow_le_pow_right (by omega) hN

theorem decompose_compose_tag (ptr tag N : Nat) (hp : ptr < 2 ^ WORD_BITS)
    (hN : N ≤ WORD_BITS) :
    ConquerPointer.decompose_tag (ConquerPointer.compose ptr tag N) N = tag % 2 ^ N := by
  rw [decompose_tag_eq, compose_eq_add ptr tag N hp hN, Nat.mul_add_mod,
    Nat.mod_mod_of_dvd tag dvd_rfl]

theorem decompose_compose_ptr (ptr tag N : Nat) (hp : ptr < 2 ^ WORD_BITS)
    (hN : N ≤ WORD_BITS) :
    ConquerPointer.decompose_ptr (ConquerPointer.compose ptr tag N) N =
      2 ^ N * (ptr / 2 ^ N) := by
  rw [decompose_ptr_eq _ N (compose_lt ptr tag N hp hN) hN,
    compose_eq_add ptr tag N hp hN, Nat.mul_add_div (Nat.two_pow_pos N),
    Nat.div_eq_of_lt (Nat.mod_lt tag (Nat.two_pow_pos N)), Nat.add_zero]

/-- `MarkedPtr.decompose_tag` is the remainder of the packed word mod `2 ^ N`. -/
theorem MarkedPtr.decompose_tag_mod (N : Nat) (p : MarkedPtr) :
    p.decompose_tag N = p.inner % 2 ^ N := by
  unfold MarkedPtr.decompose_tag
  exact decompose_tag_eq p.inner N

/-- `MarkedPtr.decompose_ptr` rounds the packed word down to a multiple of
`2 ^ N`. -/
theorem MarkedPtr.decompose_ptr_div (N : Nat) (p : MarkedPtr)
    (hp : p.inner < 2 ^ WORD_BITS) (hN : N ≤ WORD_BITS) :
    p.decompose_ptr N = 2 ^ N * (p.inner / 2 ^ N) := by
  unfold MarkedPtr.decompose_ptr
  exact decompose_ptr_eq p.inner N hp hN

theorem compare_add_left (d t1 t2 : Nat) :
    compare (d + t1) (d + t2) = compare t1 t2 := by
  rw [Nat.compare_def_lt, Nat.compare_def_lt]
  split_ifs <;> first | rfl | omega

/-! ### Claim theorems -/

/-- C1: for every pointer address `addr` aligned to `2 ^ N` and every tag
value `tag < 2 ^ N` (with a pointee whose alignment `2 ^ a` supports `N` tag
bits, so that `MarkedPtr::compose` passes its assertion), composing with
`MarkedPtr::compose` and then calling `decompose` returns exactly the pair
`(addr, tag)`. -/
theorem c1_compose_decompose_roundtrip (a N addr tag : Nat)
    (hN : N ≤ WORD_BITS) (haddr : addr < 2 ^ WORD_BITS)
    (haligned : addr % 2 ^ N = 0) (htag : tag < 2 ^ N) (ha : 2 ^ N ≤ 2 ^ a) :
    ∃ p, MarkedPtr.compose a N addr tag = some p ∧ p.decompose N = (addr, tag) := by
  have hassert : assert_alignment a N = true := by
    simp [assert_alignment, ha]
  refine ⟨MarkedPtr.new (ConquerPointer.compose addr tag N), ?_, ?_⟩
  · simp [MarkedPtr.compose, hassert]
  · show (ConquerPointer.decompose_ptr (ConquerPointer.compose addr tag N) N,
      ConquerPointer.decompose_tag (ConquerPointer.compose addr tag N) N) = (addr, tag)
    rw [decompose_compose_ptr addr tag N haddr hN,
      decompose_compose_tag addr tag N haddr hN,
      Nat.mul_div_cancel' (Nat.dvd_of_mod_eq_zero haligned),
      Nat.mod_eq_of_lt htag]

/-- Witness for C1 at `a = 2` (4-byte alignment), `N = 2`, `addr = 4`,
`tag = 3`. -/
theorem c1_compose_decompose_roundtrip_witness :
    (4 % 2 ^ 2 = 0 ∧ 3 < 2 ^ 2) ∧
      ∃ p, MarkedPtr.compose 2 2 4 3 = some p ∧ p.decompose 2 = (4, 3) :=
  ⟨by decide,
    c1_compose_decompose_roundtrip 2 2 4 3 (by decide) (by decide) (by decide)
      (by decide) (by decide)⟩

/-- C2: for every address and every tag value (including `tag ≥ 2 ^ N`),
`MarkedPtr::compose(addr, tag)` yields the same value as
`MarkedPtr::compose(addr, tag mod 2 ^ N)`: excess tag bits are silently
truncated and never cause an error. -/
theorem c2_compose_truncates_tag (a N ptr tag : Nat) :
    MarkedPtr.compose a N ptr tag = MarkedPtr.compose a N ptr (tag % 2 ^ N) := by
  unfold MarkedPtr.compose
  have hc : ConquerPointer.compose ptr tag N =
      ConquerPointer.compose ptr (tag % 2 ^ N) N := by
    unfold ConquerPointer.compose
    rw [land_mark_mask, land_mark_mask, Nat.mod_mod_of_dvd tag dvd_rfl]
  rw [hc]

/-- C3: whenever the pointee's alignment `2 ^ a` is smaller than `2 ^ N`,
both `MarkedPtr::compose` and `MarkedPtr::cast` hit the alignment assertion
and abort (modelled as `none`) instead of returning a value. -/
theorem c3_alignment_guard_fatal (a N ptr tag : Nat) (p : MarkedPtr)
    (h : 2 ^ a < 2 ^ N) :
    MarkedPtr.compose a N ptr tag = none ∧ MarkedPtr.cast a N p = none := by
  have hassert : assert_alignment a N = false := by
    simp [assert_alignment]
    omega
  constructor
  · simp [MarkedPtr.compose, hassert]
  · simp [MarkedPtr.cast, hassert]

/-- Witness for C3 at `a = 2` (4-byte-aligned pointee), `N = 3` tag bits,
the configuration of the repository's `illegal_type` and `illegal_cast`
tests. -/
theorem c3_alignment_guard_fatal_witness :
    2 ^ 2 < 2 ^ 3 ∧
      MarkedPtr.compose 2 3 0 7 = none ∧
        MarkedPtr.cast 2 3 (MarkedPtr.from_usize 0) = none :=
  ⟨by decide, c3_alignment_guard_fatal 2 3 0 7 (MarkedPtr.from_usize 0) (by decide)⟩

/-- C4: equality, ordering and hashing of `MarkedPtr` all work on the full
packed word: two values with the same address component but different tags
are unequal (`PartialEq` returns `false`), the words fed to the hasher
differ, and `Ord` compares the raw numeric value of the packed word — with
equal address components the order is decided by the tags, and in general it
is the order of `into_usize`. -/
theorem c4_eq_ord_hash_full_word (N : Nat) (p q : MarkedPtr)
    (hp : p.inner < 2 ^ WORD_BITS) (hq : q.inner < 2 ^ WORD_BITS)
    (hN : N ≤ WORD_BITS) (hptr : p.decompose_ptr N = q.decompose_ptr N)
    (htag : p.decompose_tag N ≠ q.decompose_tag N) :
    p.beq q = false ∧ p.hash ≠ q.hash ∧
      p.cmp q = compare (p.decompose_tag N) (q.decompose_tag N) ∧
      p.cmp q = compare p.into_usize q.into_usize := by
  have hne : p.inner ≠ q.inner := by
    intro h
    exact htag (by unfold MarkedPtr.decompose_tag; rw [h])
  refine ⟨?_, ?_, ?_, rfl⟩
  · simp [MarkedPtr.beq, hne]
  · simp [MarkedPtr.hash, hne]
  · rw [MarkedPtr.decompose_tag_mod, MarkedPtr.decompose_tag_mod]
    have hd : 2 ^ N * (p.inner / 2 ^ N) = 2 ^ N * (q.inner / 2 ^ N) := by
      rw [← MarkedPtr.decompose_ptr_div N p hp hN,
        ← MarkedPtr.decompose_ptr_div N q hq hN]
      exact hptr
    show compare p.inner q.inner = compare (p.inner % 2 ^ N) (q.inner % 2 ^ N)
    conv_lhs =>
      rw [← Nat.div_add_mod p.inner (2 ^ N), ← Nat.div_add_mod q.inner (2 ^ N)]
    rw [hd]
    exact compare_add_left _ _ _

/-- Witness for C4 at `N = 2`, `p` the word `0b101` (address 4, tag 1) and
`q` the word `0b110` (address 4, tag 2). -/
theorem c4_eq_ord_hash_full_word_witness :
    ((MarkedPtr.from_usize 5).decompose_ptr 2 = (MarkedPtr.from_usize 6).decompose_ptr 2 ∧
      (MarkedPtr.from_usize 5).decompose_tag 2 ≠ (MarkedPtr.from_usize 6).decompose_tag 2) ∧
      ((MarkedPtr.from_usize 5).beq (MarkedPtr.from_usize 6) = false ∧
        (MarkedPtr.from_usize 5).hash ≠ (MarkedPtr.from_usize 6).hash ∧
        (MarkedPtr.from_usize 5).cmp (MarkedPtr.from_usize 6) =
          compare ((MarkedPtr.from_usize 5).decompose_tag 2)
            ((MarkedPtr.from_usize 6).decompose_tag 2) ∧
        (MarkedPtr.from_usize 5).cmp (MarkedPtr.from_usize 6) =
          compare (MarkedPtr.from_usize 5).into_usize
            (MarkedPtr.from_usize 6).into_usize) :=
  ⟨⟨by decide, by decide⟩,
    c4_eq_ord_hash_full_word 2 (MarkedPtr.from_usize 5) (MarkedPtr.from_usize 6)
      (by decide) (by decide) (by decide) (by decide) (by decide)⟩

/-- C5: `is_null()` returns `true` iff the address component after tag
removal is zero; a value whose stripped address is zero but whose tag is
non-zero satisfies `is_null() = true` yet is not bit-equal to `null()`. -/
theorem c5_is_null_semantics (N : Nat) (p : MarkedPtr) :
    (p.is_null N = true ↔ p.decompose_ptr N = 0) ∧
      (p.decompose_ptr N = 0 → p.decompose_tag N ≠ 0 →
        p.is_null N = true ∧ p ≠ MarkedPtr.null) := by
  constructor
  · simp [MarkedPtr.is_null]
  · intro hptr htag
    refine ⟨by simp [MarkedPtr.is_null, hptr], ?_⟩
    intro h
    apply htag
    rw [h, MarkedPtr.decompose_tag_mod]
    show (0 : Nat) % 2 ^ N = 0
    exact Nat.zero_mod _

/-- Witness for C5 at `N = 2` and the word `0b11` (stripped address 0,
tag 3). -/
theorem c5_is_null_semantics_witness :
    ((MarkedPtr.from_usize 3).decompose_ptr 2 = 0 ∧
      (MarkedPtr.from_usize 3).decompose_tag 2 ≠ 0) ∧
      ((MarkedPtr.from_usize 3).is_null 2 = true ↔
        (MarkedPtr.from_usize 3).decompose_ptr 2 = 0) ∧
      ((MarkedPtr.from_usize 3).is_null 2 = true ∧
        MarkedPtr.from_usize 3 ≠ MarkedPtr.null) :=
  ⟨⟨by decide, by decide⟩,
    (c5_is_null_semantics 2 (MarkedPtr.from_usize 3)).1,
    (c5_is_null_semantics 2 (MarkedPtr.from_usize 3)).2 (by decide) (by decide)⟩

/-- C7: `add_tag` and `sub_tag` are total whole-word operations with no
bounds checking: `add_tag` is plain wrapping addition on the packed word,
and the two operations undo each other exactly, for every input word and
every delta — overflow past the tag field or underflow wraps silently and is
never reported as an error. -/
theorem c7_raw_arithmetic_total (p : MarkedPtr) (v : Nat)
    (hp : p.inner < 2 ^ WORD_BITS) :
    (p.add_tag v).into_usize = (p.into_usize + v) % 2 ^ WORD_BITS ∧
      (p.add_tag v).sub_tag v = p ∧ (p.sub_tag v).add_tag v = p := by
  obtain ⟨x⟩ := p
  refine ⟨rfl, ?_, ?_⟩
  · show MarkedPtr.mk
      (((x + v) % 2 ^ WORD_BITS + (2 ^ WORD_BITS - v % 2 ^ WORD_BITS)) % 2 ^ WORD_BITS) =
        MarkedPtr.mk x
    rw [MarkedPtr.mk.injEq]
    show ((x + v) % 2 ^ 64 + (2 ^ 64 - v % 2 ^ 64)) % 2 ^ 64 = x
    have hx : x < 2 ^ 64 := hp
    omega
  · show MarkedPtr.mk
      (((x + (2 ^ WORD_BITS - v % 2 ^ WORD_BITS)) % 2 ^ WORD_BITS + v) % 2 ^ WORD_BITS) =
        MarkedPtr.mk x
    rw [MarkedPtr.mk.injEq]
    show ((x + (2 ^ 64 - v % 2 ^ 64)) % 2 ^ 64 + v) % 2 ^ 64 = x
    have hx : x < 2 ^ 64 := hp
    omega

/-- Witness for C7 at the word `3` and delta `10`. -/
theorem c7_raw_arithmetic_total_witness :
    (MarkedPtr.from_usize 3).inner < 2 ^ WORD_BITS ∧
      ((MarkedPtr.from_usize 3).add_tag 10).into_usize =
        ((MarkedPtr.from_usize 3).into_usize + 10) % 2 ^ WORD_BITS ∧
      ((MarkedPtr.from_usize 3).add_tag 10).sub_tag 10 = MarkedPtr.from_usize 3 ∧
      ((MarkedPtr.from_usize 3).sub_tag 10).add_tag 10 = MarkedPtr.from_usize 3 :=
  ⟨by decide, c7_raw_arithmetic_total (MarkedPtr.from_usize 3) 10 (by decide)⟩

/-- C6 counterexample: for a pointee of alignment `4 = 2 ^ 2` and `N = 3`
tag bits (alignment smaller than `2 ^ N`), `set_tag` hits the alignment
assertion and aborts (`none`), but `clear_tag` — which the claim says is
equally fatal because it allegedly re-validates through `compose` — returns
normally: the source builds it with `Self::new(self.decompose_ptr())` and
never calls `compose` or `assert_alignment`. -/
theorem c6_clear_tag_not_fatal_counterexample :
    MarkedPtr.set_tag 2 3 (MarkedPtr.from_usize 8) 0 = none ∧
      MarkedPtr.clear_tag 3 (MarkedPtr.from_usize 8) = MarkedPtr.new 8 := by
  constructor
  · decide
  · decide

/-- C6 (amended): `set_tag` and `update_tag` preserve the address component
and re-validate the alignment invariant through `compose`, so both abort for
a pointee whose alignment `2 ^ a` is smaller than `2 ^ N`; `clear_tag` also
preserves the address component but performs no alignment validation and
always returns normally. -/
theorem c6_tag_ops_preserve_address (a N : Nat) (p : MarkedPtr) (t : Nat)
    (f : Nat → Nat) (hp : p.inner < 2 ^ WORD_BITS) (hN : N ≤ WORD_BITS) :
    (p.clear_tag N).decompose_ptr N = p.decompose_ptr N ∧
      (2 ^ N ≤ 2 ^ a →
        (∃ q, p.set_tag a N t = some q ∧ q.decompose_ptr N = p.decompose_ptr N) ∧
          (∃ q, p.update_tag a N f = some q ∧ q.decompose_ptr N = p.decompose_ptr N)) ∧
      (2 ^ a < 2 ^ N → p.set_tag a N t = none ∧ p.update_tag a N f = none) := by
  have hstrip : ConquerPointer.decompose_ptr p.inner N = 2 ^ N * (p.inner / 2 ^ N) :=
    decompose_ptr_eq p.inner N hp hN
  have hstrip_lt : ConquerPointer.decompose_ptr p.inner N < 2 ^ WORD_BITS := by
    unfold ConquerPointer.decompose_ptr
    exact Nat.lt_of_le_of_lt Nat.and_le_left hp
  have hstrip_div : ConquerPointer.decompose_ptr p.inner N / 2 ^ N = p.inner / 2 ^ N := by
    rw [hstrip, Nat.mul_div_cancel_left _ (Nat.two_pow_pos N)]
  have hrecomp : ∀ tg, ConquerPointer.decompose_ptr
      (ConquerPointer.compose (ConquerPointer.decompose_ptr p.inner N) tg N) N =
        ConquerPointer.decompose_ptr p.inner N := by
    intro tg
    rw [decompose_compose_ptr _ tg N hstrip_lt hN, hstrip_div, hstrip]
  refine ⟨?_, ?_, ?_⟩
  · show ConquerPointer.decompose_ptr (ConquerPointer.decompose_ptr p.inner N) N =
      ConquerPointer.decompose_ptr p.inner N
    rw [decompose_ptr_eq _ N hstrip_lt hN, hstrip_div, hstrip]
  · intro ha
    have hassert : assert_alignment a N = true := by
      simp [assert_alignment, ha]
    constructor
    · refine ⟨MarkedPtr.new
        (ConquerPointer.compose (ConquerPointer.decompose_ptr p.inner N) t N), ?_, ?_⟩
      · simp [MarkedPtr.set_tag, MarkedPtr.compose, hassert]
        rfl
      · exact hrecomp t
    · refine ⟨MarkedPtr.new
        (ConquerPointer.compose (ConquerPointer.decompose_ptr p.inner N)
          (f (ConquerPointer.decompose_tag p.inner N)) N), ?_, ?_⟩
      · simp [MarkedPtr.update_tag, MarkedPtr.compose, hassert]
        rfl
      · exact hrecomp _
  · intro ha
    have hassert : assert_alignment a N = false := by
      simp [assert_alignment]
      omega
    constructor
    · simp [MarkedPtr.set_tag, MarkedPtr.compose, hassert]
    · simp [MarkedPtr.update_tag, MarkedPtr.compose, hassert]

/-- Witness for the amended C6 at `a = 2`, `N = 2`, the word `7`, new tag
`1` and transform `fun x => x + 1`. -/
theorem c6_tag_ops_preserve_address_witness :
    ((MarkedPtr.from_usize 7).clear_tag 2).decompose_ptr 2 =
        (MarkedPtr.from_usize 7).decompose_ptr 2 ∧
      (2 ^ 2 ≤ 2 ^ 2 →
        (∃ q, (MarkedPtr.from_usize 7).set_tag 2 2 1 = some q ∧
          q.decompose_ptr 2 = (MarkedPtr.from_usize 7).decompose_ptr 2) ∧
          (∃ q, (MarkedPtr.from_usize 7).update_tag 2 2 (fun x => x + 1) = some q ∧
            q.decompose_ptr 2 = (MarkedPtr.from_usize 7).decompose_ptr 2)) ∧
      (2 ^ 2 < 2 ^ 2 →
        (MarkedPtr.from_usize 7).set_tag 2 2 1 = none ∧
          (MarkedPtr.from_usize 7).update_tag 2 2 (fun x => x + 1) = none) :=
  c6_tag_ops_preserve_address 2 2 (MarkedPtr.from_usize 7) 1 (fun x => x + 1)
    (by decide) (by decide)

/-- C8: for every `MarkedPtr` and every tag value `t`,
`p.set_tag(t).decompose_tag()` is exactly `t` truncated to the low `N`
bits, and `p.set_tag(t).decompose_ptr()` equals `p.decompose_ptr()`
(assuming the pointee's alignment passes the assertion inside `compose`). -/
theorem c8_set_tag_decompose (a N : Nat) (p : MarkedPtr) (t : Nat)
    (hp : p.inner < 2 ^ WORD_BITS) (hN : N ≤ WORD_BITS) (ha : 2 ^ N ≤ 2 ^ a) :
    ∃ q, p.set_tag a N t = some q ∧
      q.decompose_tag N = t % 2 ^ N ∧ q.decompose_ptr N = p.decompose_ptr N := by
  have hassert : assert_alignment a N = true := by
    simp [assert_alignment, ha]
  have hstrip_lt : ConquerPointer.decompose_ptr p.inner N < 2 ^ WORD_BITS := by
    unfold ConquerPointer.decompose_ptr
    exact Nat.lt_of_le_of_lt Nat.and_le_left hp
  refine ⟨MarkedPtr.new
    (ConquerPointer.compose (ConquerPointer.decompose_ptr p.inner N) t N), ?_, ?_, ?_⟩
  · simp [MarkedPtr.set_tag, MarkedPtr.compose, hassert]
    rfl
  · show ConquerPointer.decompose_tag
      (ConquerPointer.compose (ConquerPointer.decompose_ptr p.inner N) t N) N = t % 2 ^ N
    rw [decompose_compose_tag _ t N hstrip_lt hN]
  · show ConquerPointer.decompose_ptr
      (ConquerPointer.compose (ConquerPointer.decompose_ptr p.inner N) t N) N =
        ConquerPointer.decompose_ptr p.inner N
    rw [decompose_compose_ptr _ t N hstrip_lt hN,
      decompose_ptr_eq p.inner N hp hN,
      Nat.mul_div_cancel_left _ (Nat.two_pow_pos N)]

/-- Witness for C8 at `a = 2`, `N = 2`, the word `7` (address 4, tag 3) and
new tag `5` (which truncates to `1`). -/
theorem c8_set_tag_decompose_witness :
    2 ^ 2 ≤ 2 ^ 2 ∧
      ∃ q, (MarkedPtr.from_usize 7).set_tag 2 2 5 = some q ∧
        q.decompose_tag 2 = 5 % 2 ^ 2 ∧
        q.decompose_ptr 2 = (MarkedPtr.from_usize 7).decompose_ptr 2 :=
  ⟨by decide,
    c8_set_tag_decompose 2 2 (MarkedPtr.from_usize 7) 5 (by decide) (by decide)
      (by decide)⟩

/-- C9: converting a reference (a nonzero address aligned to the pointee's
alignment `2 ^ a`, with `2 ^ N ≤ 2 ^ a`) into a `MarkedPtr` through the
`From<&T>` and `From<&mut T>` conversions yields a value whose tag field is
exactly zero and whose address component is exactly the referent's
address. -/
theorem c9_from_reference_zero_tag (a N addr : Nat)
    (hN : N ≤ WORD_BITS) (haddr : addr < 2 ^ WORD_BITS)
    (halign : addr % 2 ^ a = 0) (ha : 2 ^ N ≤ 2 ^ a) :
    (MarkedPtr.from_ref addr).decompose_tag N = 0 ∧
      (MarkedPtr.from_ref addr).decompose_ptr N = addr ∧
      (MarkedPtr.from_mut_ref addr).decompose_tag N = 0 ∧
      (MarkedPtr.from_mut_ref addr).decompose_ptr N = addr := by
  have hNa : N ≤ a := (Nat.pow_le_pow_iff_right (by omega)).mp ha
  have hdvd : 2 ^ N ∣ addr :=
    dvd_trans (pow_dvd_pow 2 hNa) (Nat.dvd_of_mod_eq_zero halign)
  obtain ⟨k, hk⟩ := hdvd
  have htag : addr % 2 ^ N = 0 := by
    rw [hk]
    exact Nat.mul_mod_right _ _
  have hptr : ConquerPointer.decompose_ptr addr N = addr := by
    rw [decompose_ptr_eq addr N haddr hN, hk,
      Nat.mul_div_cancel_left _ (Nat.two_pow_pos N)]
  have htag' : ConquerPointer.decompose_tag addr N = 0 := by
    rw [decompose_tag_eq, htag]
  exact ⟨htag', hptr, htag', hptr⟩

/-- Witness for C9 at `a = 3` (8-byte alignment), `N = 2`, `addr = 8`. -/
theorem c9_from_reference_zero_tag_witness :
    (8 % 2 ^ 3 = 0 ∧ 2 ^ 2 ≤ 2 ^ 3) ∧
      (MarkedPtr.from_ref 8).decompose_tag 2 = 0 ∧
      (MarkedPtr.from_ref 8).decompose_ptr 2 = 8 ∧
      (MarkedPtr.from_mut_ref 8).decompose_tag 2 = 0 ∧
      (MarkedPtr.from_mut_ref 8).decompose_ptr 2 = 8 :=
  ⟨by decide,
    c9_from_reference_zero_tag 3 2 8 (by decide) (by decide) (by decide) (by decide)⟩

/-- C10: decomposition loses no information for any bit pattern: the bitwise
OR of `p.clear_tag().into_usize()` and `p.decompose_tag()` recovers
`p.into_usize()` exactly, and `p.split_tag()` is exactly the pair
`(p.clear_tag(), p.decompose_tag())`. -/
theorem c10_decompose_lossless (N : Nat) (p : MarkedPtr)
    (hp : p.inner < 2 ^ WORD_BITS) (hN : N ≤ WORD_BITS) :
    (p.clear_tag N).into_usize ||| p.decompose_tag N = p.into_usize ∧
      p.split_tag N = (p.clear_tag N, p.decompose_tag N) := by
  constructor
  · show ConquerPointer.decompose_ptr p.inner N |||
      ConquerPointer.decompose_tag p.inner N = p.inner
    rw [decompose_ptr_eq p.inner N hp hN, decompose_tag_eq,
      ← Nat.mul_add_lt_is_or (Nat.mod_lt p.inner (Nat.two_pow_pos N)),
      Nat.div_add_mod]
  · rfl

/-- Witness for C10 at `N = 2` and the word `0b10110` (address 20, tag 2). -/
theorem c10_decompose_lossless_witness :
    (MarkedPtr.from_usize 22).inner < 2 ^ WORD_BITS ∧
      ((MarkedPtr.from_usize 22).clear_tag 2).into_usize |||
          (MarkedPtr.from_usize 22).decompose_tag 2 =
        (MarkedPtr.from_usize 22).into_usize ∧
      (MarkedPtr.from_usize 22).split_tag 2 =
        ((MarkedPtr.from_usize 22).clear_tag 2,
          (MarkedPtr.from_usize 22).decompose_tag 2) :=
  ⟨by decide, c10_decompose_lossless 2 (MarkedPtr.from_usize 22) (by decide) (by decide)⟩

end ConquerPointer
